import Mathlib

/-!
Verification of the reminder scheduling and delivery subsystem of the Sara
bot (src/services/reminder_service.py, src/services/scheduler_service.py).

The durable store (a SQLAlchemy session over the `users` and `reminders`
tables) is embedded as an explicit state value `DB`: the `reminders` table
is a list of rows in primary-key (insertion) order, and each service method
becomes a pure function from `DB` to a result together with the updated
`DB`.  Instants (`reminder_date`, `now`) are integers — minutes since the
Unix epoch, UTC.  Row ids are `Nat`; the autoincrement primary key is
modelled by the `next_reminder_id` counter.
-/

namespace Sara

/-- A row of the `users` table (database.models.User), restricted to the
fields the reminder services read: surrogate id and the Telegram id used
for lookup. -/
structure User where
  id : Nat
  telegram_id : Int
deriving Repr, DecidableEq

/-- A row of the `reminders` table (database.models.Reminder), with the
fields used by ReminderService and SchedulerService: `is_sent` is the
delivered flag, `is_completed` the user-acknowledged flag, `job_id` the
correlation key naming the in-process timer. -/
structure Reminder where
  id : Nat
  user_id : Nat
  description : String
  reminder_date : Int
  urgency : String
  job_id : String
  shortcut_url : Option String
  is_sent : Bool
  is_completed : Bool
deriving Repr, DecidableEq

/-- The durable store: both tables plus the autoincrement counter for
reminder primary keys.  Rows are kept in primary-key order (new rows are
appended). -/
structure DB where
  users : List User
  reminders : List Reminder
  next_reminder_id : Nat
deriving Repr, DecidableEq

/-- UserService.get_user_by_telegram_id: `query(User).filter(User.telegram_id
== telegram_id).first()`. -/
def get_user_by_telegram_id (db : DB) (telegram_id : Int) : Option User :=
  db.users.find? (fun u => u.telegram_id == telegram_id)

/-- ReminderService.create_reminder: looks the user up by Telegram id,
returns `none` when absent, otherwise inserts a fresh row with
`is_sent = false`, `is_completed = false` and the next primary key.  The
`uuid4` fragment of the job id is passed in as `nonce`. -/
def create_reminder (db : DB) (telegram_id : Int) (description : String)
    (reminder_date : Int) (urgency : String) (nonce : String)
    (shortcut_url : Option String) : Option Reminder × DB :=
  match get_user_by_telegram_id db telegram_id with
  | none => (none, db)
  | some u =>
    let r : Reminder :=
      { id := db.next_reminder_id
        user_id := u.id
        description := description
        reminder_date := reminder_date
        urgency := urgency
        job_id := "reminder_" ++ nonce ++ "_" ++ toString u.id
        shortcut_url := shortcut_url
        is_sent := false
        is_completed := false }
    (some r, { db with reminders := db.reminders ++ [r]
                       next_reminder_id := db.next_reminder_id + 1 })

/-- ReminderService.get_pending_reminders: rows with `is_sent == False`,
`is_completed == False` and `reminder_date <= limit_date`, ordered by
`reminder_date` ascending.  (In the source `limit_date` is optional and
defaults to the current instant; every caller relevant here passes it, so
it is a required argument.)  The SQL `ORDER BY reminder_date ASC` is
embedded as a stable insertion sort of the rows, which are kept in
primary-key order, so rows with equal due instants come out in id order.
`dueLe` is the sort key: due instant, non-strict. -/
def dueLe (a b : Reminder) : Prop := a.reminder_date ≤ b.reminder_date

instance : DecidableRel dueLe := fun a b => Int.decLe a.reminder_date b.reminder_date

def get_pending_reminders (db : DB) (limit_date : Int) : List Reminder :=
  List.insertionSort dueLe
    (db.reminders.filter
      (fun r => !r.is_sent && !r.is_completed && decide (r.reminder_date ≤ limit_date)))

/-- Helper for the `.first()`-then-update pattern: set `is_sent := true` on
the first row whose id matches. -/
def setSentFirst : List Reminder → Nat → List Reminder
  | [], _ => []
  | r :: rest, rid =>
    if r.id = rid then { r with is_sent := true } :: rest
    else r :: setSentFirst rest rid

/-- Helper: set `is_completed := true` on the first row whose id matches. -/
def setCompletedFirst : List Reminder → Nat → List Reminder
  | [], _ => []
  | r :: rest, rid =>
    if r.id = rid then { r with is_completed := true } :: rest
    else r :: setCompletedFirst rest rid

/-- ReminderService.mark_reminder_as_sent: fetch by id with `.first()`; if
found, set `is_sent = True`, commit and return `True`; otherwise return
`False` without touching the store. -/
def mark_reminder_as_sent (db : DB) (reminder_id : Nat) : Bool × DB :=
  if db.reminders.any (fun r => r.id == reminder_id) then
    (true, { db with reminders := setSentFirst db.reminders reminder_id })
  else (false, db)

/-- ReminderService.mark_reminder_as_completed: same shape, setting
`is_completed = True`. -/
def mark_reminder_as_completed (db : DB) (reminder_id : Nat) : Bool × DB :=
  if db.reminders.any (fun r => r.id == reminder_id) then
    (true, { db with reminders := setCompletedFirst db.reminders reminder_id })
  else (false, db)

/-- ReminderService.delete_reminder: resolve the requesting user by
Telegram id (`False` when absent), then fetch the first row matching both
the reminder id and that user's id; delete it when found, else return
`False` with the store unchanged. -/
def delete_reminder (db : DB) (reminder_id : Nat) (telegram_id : Int) : Bool × DB :=
  match get_user_by_telegram_id db telegram_id with
  | none => (false, db)
  | some u =>
    if db.reminders.any (fun r => r.id == reminder_id && r.user_id == u.id) then
      (true, { db with reminders :=
                 db.reminders.eraseP (fun r => r.id == reminder_id && r.user_id == u.id) })
    else (false, db)

/-- The result of ReminderService.get_reminder_statistics for an existing
user. -/
structure Stats where
  total : Nat
  completed : Nat
  pending : Nat
  overdue : Nat
deriving Repr, DecidableEq

/-- ReminderService.get_reminder_statistics: `none` embeds the empty dict
returned when the user does not exist; otherwise four COUNT queries over
the user's rows, evaluated at the current instant `now`. -/
def get_reminder_statistics (db : DB) (telegram_id : Int) (now : Int) : Option Stats :=
  match get_user_by_telegram_id db telegram_id with
  | none => none
  | some u =>
    some
      { total := (db.reminders.filter (fun r => r.user_id == u.id)).length
        completed := (db.reminders.filter
            (fun r => r.user_id == u.id && r.is_completed)).length
        pending := (db.reminders.filter
            (fun r => r.user_id == u.id && !r.is_completed
              && decide (now < r.reminder_date))).length
        overdue := (db.reminders.filter
            (fun r => r.user_id == u.id && !r.is_completed
              && decide (r.reminder_date ≤ now))).length }

/-! ## Time resolution (ReminderService.parse_reminder_data)

Dates are day numbers (days since 1970-01-01 in the user's local
calendar); instants are minutes since the Unix epoch, UTC.  The user's
timezone enters as its UTC offset in minutes (`pytz.timezone` followed by
`localize`/`astimezone`; for the zones and dates in the claims the offset
is constant, e.g. America/Sao_Paulo is UTC-03:00 year-round since 2019).
The external `dateutil.parser.parse` call of the general date branch is a
parameter `dateutil_parse` returning the parsed day or `none` when it
raises. -/

/-- Python `int(s)` on the token strings that reach it here: an optional
sign followed by decimal digits; `none` when `int` would raise
`ValueError`. -/
def pyInt (cs : List Char) : Option Int :=
  match cs with
  | [] => none
  | c :: rest =>
    if c = '-' ∧ rest ≠ [] ∧ rest.all (fun d => d.isDigit) then
      some (-(rest.foldl (fun acc d => acc * 10 + ((d.toNat : Int) - 48)) 0))
    else if c = '+' ∧ rest ≠ [] ∧ rest.all (fun d => d.isDigit) then
      some (rest.foldl (fun acc d => acc * 10 + ((d.toNat : Int) - 48)) 0)
    else if (c :: rest).all (fun d => d.isDigit) then
      some ((c :: rest).foldl (fun acc d => acc * 10 + ((d.toNat : Int) - 48)) 0)
    else none

/-- Python `s.split(sep)` for a one-character separator, on char lists. -/
def splitOnChar (sep : Char) : List Char → List (List Char)
  | [] => [[]]
  | c :: rest =>
    let r := splitOnChar sep rest
    if c = sep then [] :: r
    else
      match r with
      | [] => [[c]]
      | g :: gs => (c :: g) :: gs

/-- ASCII lower-casing of a char code (Python `str.lower` on the literals
compared against, which are ASCII apart from `ã`, left unchanged by both). -/
def lowerCode (n : Nat) : Nat := if 65 ≤ n ∧ n ≤ 90 then n + 32 else n

/-- Python comparison `date_str.lower() == lit` for a lowercase literal
`lit`. -/
def lowerEq (s lit : String) : Bool :=
  (s.data.map (fun c => lowerCode c.toNat)) == (lit.data.map (fun c => c.toNat))

/-- The date branch of parse_reminder_data: "hoje"/"today" resolve to the
user-local current date, "amanhã"/"amanha"/"tomorrow" to the next date;
anything else goes to `dateutil.parser.parse` and falls back to today when
that raises. -/
def resolve_date (dateutil_parse : String → Option Int) (date_str : String)
    (now_day : Int) : Int :=
  if lowerEq date_str "hoje" || lowerEq date_str "today" then now_day
  else if lowerEq date_str "amanhã" || lowerEq date_str "amanha"
      || lowerEq date_str "tomorrow" then now_day + 1
  else
    match dateutil_parse date_str with
    | some day => day
    | none => now_day

/-- The time branch of parse_reminder_data: empty token → 09:00; token
split on ":" with at least two parts → `int` of the first two parts, any
`int` failure → 09:00; single part → `int` of the whole token as the hour,
failure → 09:00.  Range is NOT checked here: out-of-range integers such as
25:99 come through. -/
def resolve_time (time_str : String) : Int × Int :=
  if time_str = "" then (9, 0)
  else
    match splitOnChar ':' time_str.data with
    | p0 :: p1 :: _ =>
      match pyInt p0, pyInt p1 with
      | some hh, some mm => (hh, mm)
      | _, _ => (9, 0)
    | _ =>
      match pyInt time_str.data with
      | some hh => (hh, 0)
      | none => (9, 0)

/-- ReminderService.parse_reminder_data: resolve the date and the time,
build the local datetime `datetime.min.time().replace(hour, minute)`
combined with the date — `.replace` raises `ValueError` outside
0 ≤ hour ≤ 23, 0 ≤ minute ≤ 59, which the outer handler turns into `None`
— then localize in the user's zone and convert to UTC (subtract the
offset).  Returns the UTC instant in minutes, or `none` on that error. -/
def parse_reminder_data (dateutil_parse : String → Option Int)
    (date_str time_str : String) (tz_offset_min : Int) (now_day : Int) :
    Option Int :=
  let target_day := resolve_date dateutil_parse date_str now_day
  let hm := resolve_time time_str
  if 0 ≤ hm.1 ∧ hm.1 ≤ 23 ∧ 0 ≤ hm.2 ∧ hm.2 ≤ 59 then
    some (target_day * 1440 + hm.1 * 60 + hm.2 - tz_offset_min)
  else none

/-! ## Scheduler (src/services/scheduler_service.py) -/

/-- SchedulerService.schedule_reminder's delay computation, in seconds of
`Int`-valued instants: `when = 60` if the due instant is at or before now,
otherwise the remaining seconds `reminder_time - now`. -/
def compute_when (now reminder_time : Int) : Int :=
  if reminder_time ≤ now then 60 else reminder_time - now

/-- Observable store calls made by a delivery path, in program order:
`markSent i` is the call to ReminderService.mark_reminder_as_sent for
reminder `i`; `deliverAttempt i ok` is the call to `bot.send_message` for
reminder `i`, with `ok` recording whether the send succeeded (a failed
send raises inside the callback's try block and is only logged). -/
inductive Event where
  | markSent (reminder_id : Nat)
  | deliverAttempt (reminder_id : Nat) (ok : Bool)
deriving Repr, DecidableEq

/-- SchedulerService._send_reminder_callback on the job payload for
reminder `reminder_id`: it first opens a session and calls
`mark_reminder_as_sent`, then composes the message and calls
`bot.send_message` (whose outcome is `deliver_ok`).  The returned trace
lists the two calls in program order. -/
def send_reminder_callback (db : DB) (reminder_id : Nat) (deliver_ok : Bool) :
    DB × List Event :=
  ((mark_reminder_as_sent db reminder_id).2,
   [Event.markSent reminder_id, Event.deliverAttempt reminder_id deliver_ok])

/-- SchedulerService._send_reminder_callback_direct: identical body to the
timer callback, taking the reminder row instead of a job payload. -/
def send_reminder_callback_direct (db : DB) (r : Reminder) (deliver_ok : Bool) :
    DB × List Event :=
  ((mark_reminder_as_sent db r.id).2,
   [Event.markSent r.id, Event.deliverAttempt r.id deliver_ok])

/-- The loop body of SchedulerService._check_pending_reminders_callback:
walk the fetched pending list; for each reminder whose job name is absent
from the job queue (`jobs` is the set of names of currently scheduled
jobs), deliver it directly.  `ok` gives the send outcome per reminder id. -/
def deliver_missing (jobs : List String) (ok : Nat → Bool) :
    DB → List Reminder → DB × List Event
  | db, [] => (db, [])
  | db, r :: rest =>
    if r.job_id ∈ jobs then deliver_missing jobs ok db rest
    else
      let step := send_reminder_callback_direct db r (ok r.id)
      let next := deliver_missing jobs ok step.1 rest
      (next.1, step.2 ++ next.2)

/-- One Sweeper tick, SchedulerService._check_pending_reminders_callback:
fetch the pending reminders as of `now`, then deliver every one whose
timer job is missing. -/
def check_pending_reminders (db : DB) (jobs : List String) (now : Int)
    (ok : Nat → Bool) : DB × List Event :=
  deliver_missing jobs ok db (get_pending_reminders db now)

/-- Number of delivery attempts for reminder `rid` in a trace. -/
def countDeliver (evs : List Event) (rid : Nat) : Nat :=
  (evs.filter (fun e =>
    match e with
    | Event.deliverAttempt i _ => i == rid
    | _ => false)).length

/-! ## Helper lemmas -/

theorem setSentFirst_ids (l : List Reminder) (rid : Nat) :
    (setSentFirst l rid).map (fun r => r.id) = l.map (fun r => r.id) := by
  induction l with
  | nil => rfl
  | cons r rest ih =>
    by_cases h : r.id = rid
    · simp [setSentFirst, h]
    · simp [setSentFirst, h, ih]

theorem setCompletedFirst_ids (l : List Reminder) (rid : Nat) :
    (setCompletedFirst l rid).map (fun r => r.id) = l.map (fun r => r.id) := by
  induction l with
  | nil => rfl
  | cons r rest ih =>
    by_cases h : r.id = rid
    · simp [setCompletedFirst, h]
    · simp [setCompletedFirst, h, ih]

theorem mem_setSentFirst {l : List Reminder} {rid : Nat} {x : Reminder}
    (hx : x ∈ setSentFirst l rid) :
    x ∈ l ∨ ∃ y ∈ l, x = { y with is_sent := true } := by
  induction l with
  | nil => simp [setSentFirst] at hx
  | cons r rest ih =>
    by_cases h : r.id = rid
    · simp only [setSentFirst, if_pos h, List.mem_cons] at hx
      rcases hx with hx | hx
      · exact Or.inr ⟨r, List.mem_cons_self r rest, hx⟩
      · exact Or.inl (List.mem_cons_of_mem r hx)
    · simp only [setSentFirst, if_neg h, List.mem_cons] at hx
      rcases hx with hx | hx
      · exact Or.inl (hx ▸ List.mem_cons_self r rest)
      · rcases ih hx with h1 | ⟨y, hy, hxy⟩
        · exact Or.inl (List.mem_cons_of_mem r h1)
        · exact Or.inr ⟨y, List.mem_cons_of_mem r hy, hxy⟩

theorem mem_setCompletedFirst {l : List Reminder} {rid : Nat} {x : Reminder}
    (hx : x ∈ setCompletedFirst l rid) :
    x ∈ l ∨ ∃ y ∈ l, x = { y with is_completed := true } := by
  induction l with
  | nil => simp [setCompletedFirst] at hx
  | cons r rest ih =>
    by_cases h : r.id = rid
    · simp only [setCompletedFirst, if_pos h, List.mem_cons] at hx
      rcases hx with hx | hx
      · exact Or.inr ⟨r, List.mem_cons_self r rest, hx⟩
      · exact Or.inl (List.mem_cons_of_mem r hx)
    · simp only [setCompletedFirst, if_neg h, List.mem_cons] at hx
      rcases hx with hx | hx
      · exact Or.inl (hx ▸ List.mem_cons_self r rest)
      · rcases ih hx with h1 | ⟨y, hy, hxy⟩
        · exact Or.inl (List.mem_cons_of_mem r h1)
        · exact Or.inr ⟨y, List.mem_cons_of_mem r hy, hxy⟩

theorem setSentFirst_idem (l : List Reminder) (rid : Nat) :
    setSentFirst (setSentFirst l rid) rid = setSentFirst l rid := by
  induction l with
  | nil => rfl
  | cons r rest ih =>
    by_cases h : r.id = rid
    · simp [setSentFirst, h]
    · simp [setSentFirst, h, ih]

/-- Every row of `setSentFirst l rid` whose id is `rid` is sent, provided
row ids are unique (`setSentFirst` only touches the first match, but under
uniqueness the first match is the only one). -/
theorem setSentFirst_sentAll (l : List Reminder) (rid : Nat)
    (hnd : (l.map (fun r => r.id)).Nodup) :
    ∀ x ∈ setSentFirst l rid, x.id = rid → x.is_sent = true := by
  induction l with
  | nil => intro x hx; simp [setSentFirst] at hx
  | cons r rest ih =>
    simp only [List.map_cons, List.nodup_cons] at hnd
    by_cases h : r.id = rid
    · intro x hx hid
      simp only [setSentFirst, if_pos h, List.mem_cons] at hx
      rcases hx with hx | hx
      · simp [hx]
      · exfalso
        exact hnd.1 (h ▸ hid ▸ List.mem_map_of_mem (fun r => r.id) hx)
    · intro x hx hid
      simp only [setSentFirst, if_neg h, List.mem_cons] at hx
      rcases hx with hx | hx
      · exact absurd (hx ▸ hid) h
      · exact ih hnd.2 x hx hid

theorem mark_ids (db : DB) (rid : Nat) :
    (mark_reminder_as_sent db rid).2.reminders.map (fun r => r.id)
      = db.reminders.map (fun r => r.id) := by
  unfold mark_reminder_as_sent
  split
  · exact setSentFirst_ids db.reminders rid
  · rfl

/-- All rows with a given id are sent: the store-level delivered
invariant tracked across operations. -/
def sentAll (db : DB) (rid : Nat) : Prop :=
  ∀ x ∈ db.reminders, x.id = rid → x.is_sent = true

theorem sentAll_mark (db : DB) (i rid : Nat) (h : sentAll db rid) :
    sentAll (mark_reminder_as_sent db i).2 rid := by
  unfold mark_reminder_as_sent
  split
  · intro x hx hid
    rcases mem_setSentFirst hx with h1 | ⟨y, hy, hxy⟩
    · exact h x h1 hid
    · simp [hxy]
  · exact h

theorem sentAll_mark_self (db : DB) (rid : Nat)
    (hnd : (db.reminders.map (fun r => r.id)).Nodup) :
    sentAll (mark_reminder_as_sent db rid).2 rid := by
  unfold mark_reminder_as_sent
  split
  · exact setSentFirst_sentAll db.reminders rid hnd
  · rename_i hany
    intro x hx hid
    exfalso
    refine hany (List.any_eq_true.mpr ⟨x, hx, ?_⟩)
    exact beq_iff_eq.mpr hid

theorem mem_get_pending (db : DB) (t : Int) (r : Reminder) :
    r ∈ get_pending_reminders db t ↔
      r ∈ db.reminders ∧ r.reminder_date ≤ t ∧ r.is_sent = false
        ∧ r.is_completed = false := by
  unfold get_pending_reminders
  rw [(List.perm_insertionSort dueLe _).mem_iff, List.mem_filter]
  simp only [Bool.and_eq_true, Bool.not_eq_true', decide_eq_true_eq]
  tauto

theorem get_pending_ids_nodup (db : DB) (t : Int)
    (hnd : (db.reminders.map (fun r => r.id)).Nodup) :
    ((get_pending_reminders db t).map (fun r => r.id)).Nodup := by
  unfold get_pending_reminders
  refine (((List.perm_insertionSort dueLe _).map (fun r => r.id)).nodup_iff).mpr ?_
  exact hnd.sublist ((List.filter_sublist db.reminders).map (fun r => r.id))

/-- The strict lexicographic order (due instant, then id) the spec claims
for `get_pending`. -/
def lexLt (a b : Reminder) : Prop :=
  a.reminder_date < b.reminder_date
    ∨ (a.reminder_date = b.reminder_date ∧ a.id < b.id)

theorem orderedInsert_lex (a : Reminder) (l : List Reminder)
    (hsort : l.Pairwise lexLt) (hid : ∀ b ∈ l, a.id < b.id) :
    (l.orderedInsert dueLe a).Pairwise lexLt := by
  induction l with
  | nil => simp [List.orderedInsert]
  | cons b t ih =>
    rw [List.pairwise_cons] at hsort
    by_cases hle : dueLe a b
    · rw [List.orderedInsert, if_pos hle]
      refine List.pairwise_cons.mpr ⟨?_, List.pairwise_cons.mpr hsort⟩
      intro c hc
      rcases List.mem_cons.mp hc with hcb | hct
      · have hab : lexLt a b := by
          rcases lt_or_eq_of_le hle with h | h
          · exact Or.inl h
          · exact Or.inr ⟨h, hid b (List.mem_cons_self b t)⟩
        exact hcb ▸ hab
      · have hbc := hsort.1 c hct
        have hbd : b.reminder_date ≤ c.reminder_date := by
          rcases hbc with h | ⟨h, _⟩
          · exact le_of_lt h
          · exact le_of_eq h
        rcases lt_or_eq_of_le (le_trans hle hbd) with h | h
        · exact Or.inl h
        · exact Or.inr ⟨h, hid c (List.mem_cons_of_mem b hct)⟩
    · rw [List.orderedInsert, if_neg hle]
      refine List.pairwise_cons.mpr ⟨?_, ?_⟩
      · intro c hc
        rcases (List.mem_orderedInsert dueLe).mp hc with hca | hct
        · subst hca
          exact Or.inl (lt_of_not_le hle)
        · exact hsort.1 c hct
      · exact ih hsort.2 (fun c hc => hid c (List.mem_cons_of_mem b hc))

theorem insertionSort_lex (l : List Reminder)
    (h : (l.map (fun r => r.id)).Sorted (· < ·)) :
    (List.insertionSort dueLe l).Pairwise lexLt := by
  induction l with
  | nil => simp [List.insertionSort]
  | cons a t ih =>
    rw [List.map_cons, List.Sorted, List.pairwise_cons] at h
    rw [List.insertionSort]
    refine orderedInsert_lex a _ (ih h.2) ?_
    intro b hb
    have hbt : b ∈ t := ((List.perm_insertionSort dueLe t).mem_iff).mp hb
    exact h.1 b.id (List.mem_map_of_mem (fun r => r.id) hbt)

theorem countDeliver_nil (rid : Nat) : countDeliver [] rid = 0 := rfl

theorem countDeliver_append (evs1 evs2 : List Event) (rid : Nat) :
    countDeliver (evs1 ++ evs2) rid = countDeliver evs1 rid + countDeliver evs2 rid := by
  unfold countDeliver
  rw [List.filter_append, List.length_append]

/-- The trace of one sweep pass makes exactly one delivery attempt per
processed row: its attempt count for id `i` is the number of rows of the
batch whose id is `i` and whose job is missing from the queue. -/
theorem countDeliver_deliver_missing (jobs : List String) (ok : Nat → Bool)
    (db : DB) (l : List Reminder) (i : Nat) :
    countDeliver (deliver_missing jobs ok db l).2 i
      = (l.filter (fun x => x.id == i && !(decide (x.job_id ∈ jobs)))).length := by
  induction l generalizing db with
  | nil => rfl
  | cons x rest ih =>
    by_cases hj : x.job_id ∈ jobs
    · rw [deliver_missing, if_pos hj, ih db, List.filter_cons]
      simp [hj]
    · rw [deliver_missing, if_neg hj]
      simp only
      rw [countDeliver_append, ih, List.filter_cons]
      have h2 : countDeliver (send_reminder_callback_direct db x (ok x.id)).2 i
          = if x.id == i then 1 else 0 := by
        unfold send_reminder_callback_direct countDeliver
        by_cases hx : x.id = i <;> simp [hx]
      rw [h2]
      by_cases hx : x.id = i <;> simp [hx, hj] <;> omega

theorem deliver_missing_sentAll_mono (jobs : List String) (ok : Nat → Bool)
    (db : DB) (l : List Reminder) (rid : Nat) (h : sentAll db rid) :
    sentAll (deliver_missing jobs ok db l).1 rid := by
  induction l generalizing db with
  | nil => exact h
  | cons x rest ih =>
    by_cases hj : x.job_id ∈ jobs
    · rw [deliver_missing, if_pos hj]
      exact ih db h
    · rw [deliver_missing, if_neg hj]
      exact ih _ (sentAll_mark db x.id rid h)

theorem deliver_missing_ids (jobs : List String) (ok : Nat → Bool)
    (db : DB) (l : List Reminder) :
    (deliver_missing jobs ok db l).1.reminders.map (fun r => r.id)
      = db.reminders.map (fun r => r.id) := by
  induction l generalizing db with
  | nil => rfl
  | cons x rest ih =>
    by_cases hj : x.job_id ∈ jobs
    · rw [deliver_missing, if_pos hj, ih db]
    · rw [deliver_missing, if_neg hj]
      simp only
      rw [ih, send_reminder_callback_direct, mark_ids]

/-- After a sweep pass over a batch containing `r` whose job is missing,
every row with `r`'s id is marked sent. -/
theorem deliver_missing_marks (jobs : List String) (ok : Nat → Bool)
    (db : DB) (l : List Reminder) (r : Reminder)
    (hnd : (db.reminders.map (fun x => x.id)).Nodup)
    (hr : r ∈ l) (hjob : r.job_id ∉ jobs) :
    sentAll (deliver_missing jobs ok db l).1 r.id := by
  induction l generalizing db with
  | nil => exact absurd hr (List.not_mem_nil r)
  | cons x rest ih =>
    rcases List.mem_cons.mp hr with hxr | hrest
    · subst hxr
      rw [deliver_missing, if_neg hjob]
      exact deliver_missing_sentAll_mono jobs ok _ rest r.id
        (sentAll_mark_self db r.id hnd)
    · by_cases hj : x.job_id ∈ jobs
      · rw [deliver_missing, if_pos hj]
        exact ih db hnd hrest
      · rw [deliver_missing, if_neg hj]
        refine ih _ ?_ hrest
        rw [send_reminder_callback_direct, mark_ids]
        exact hnd

/-- Partition of a user's rows: completed, pending (due strictly after
`now`) and overdue (due at or before `now`) are disjoint and exhaustive. -/
theorem stats_partition (l : List Reminder) (uid : Nat) (now : Int) :
    (l.filter (fun r => r.user_id == uid)).length
      = (l.filter (fun r => r.user_id == uid && r.is_completed)).length
        + (l.filter (fun r => r.user_id == uid && !r.is_completed
            && decide (now < r.reminder_date))).length
        + (l.filter (fun r => r.user_id == uid && !r.is_completed
            && decide (r.reminder_date ≤ now))).length := by
  induction l with
  | nil => rfl
  | cons r t ih =>
    rw [List.filter_cons, List.filter_cons, List.filter_cons, List.filter_cons]
    by_cases h1 : r.user_id = uid
    · by_cases h2 : r.is_completed = true
      · simp [h1, h2, ih]
        try omega
      · by_cases h3 : now < r.reminder_date
        · have h4 : ¬ r.reminder_date ≤ now := by omega
          simp [h1, h2, h3, h4, ih]
          try omega
        · have h4 : r.reminder_date ≤ now := by omega
          simp [h1, h2, h3, h4, ih]
          try omega
    · simp [h1, ih]
      try omega

theorem setSentFirst_exists_sent (l : List Reminder) (rid : Nat)
    (h : ∃ r ∈ l, r.id = rid) :
    ∃ x ∈ setSentFirst l rid, x.id = rid ∧ x.is_sent = true := by
  induction l with
  | nil => simp at h
  | cons r rest ih =>
    by_cases hid : r.id = rid
    · exact ⟨{ r with is_sent := true }, by simp [setSentFirst, hid], hid, rfl⟩
    · rcases h with ⟨y, hy, hyid⟩
      rcases List.mem_cons.mp hy with h1 | h1
      · exact absurd (h1 ▸ hyid) hid
      · rcases ih ⟨y, h1, hyid⟩ with ⟨x, hx, hxx⟩
        exact ⟨x, by simp [setSentFirst, hid]; exact Or.inr hx, hxx⟩

theorem any_id_of_ids (l : List Reminder) (rid : Nat) :
    l.any (fun x => x.id == rid)
      = (l.map (fun x => x.id)).any (fun i => i == rid) := by
  induction l with
  | nil => rfl
  | cons x rest ih => simp [ih]

/-- In a list with unique row ids, exactly one row passes a filter that
only accepts rows carrying `r`'s id, provided `r` itself passes. -/
theorem filter_unique_id (l : List Reminder) (p : Reminder → Bool) (r : Reminder)
    (hnd : (l.map (fun x => x.id)).Nodup) (hr : r ∈ l) (hp : p r = true)
    (hpid : ∀ x, p x = true → x.id = r.id) :
    (l.filter p).length = 1 := by
  induction l with
  | nil => cases hr
  | cons x rest ih =>
    rw [List.map_cons, List.nodup_cons] at hnd
    rcases List.mem_cons.mp hr with hxr | hrest
    · have hnil : rest.filter p = [] := by
        refine List.filter_eq_nil_iff.mpr ?_
        intro y hy hpy
        refine hnd.1 ?_
        have : y.id = x.id := by rw [hpid y hpy, hxr]
        exact this ▸ List.mem_map_of_mem (fun z => z.id) hy
      rw [List.filter_cons, if_pos (by rw [← hxr]; exact hp), hnil]
      rfl
    · have hpx : p x = false := by
        by_contra hc
        rw [Bool.not_eq_false] at hc
        refine hnd.1 ?_
        have : r.id = x.id := (hpid x hc).symm
        exact this ▸ List.mem_map_of_mem (fun z => z.id) hrest
      rw [List.filter_cons, if_neg (by simp [hpx])]
      exact ih hnd.2 hrest

theorem ids_bound_of_map_eq {l' l : List Reminder} {n : Nat}
    (h : l'.map (fun x => x.id) = l.map (fun x => x.id))
    (hb : ∀ x ∈ l, x.id < n) : ∀ x ∈ l', x.id < n := by
  intro x hx
  have hmem : x.id ∈ l.map (fun x => x.id) :=
    h ▸ List.mem_map_of_mem (fun z => z.id) hx
  rcases List.mem_map.mp hmem with ⟨y, hy, hid⟩
  exact hid ▸ hb y hy

theorem completed_ids (db : DB) (rid : Nat) :
    (mark_reminder_as_completed db rid).2.reminders.map (fun r => r.id)
      = db.reminders.map (fun r => r.id) := by
  unfold mark_reminder_as_completed
  split
  · exact setCompletedFirst_ids db.reminders rid
  · rfl

theorem mark_next (db : DB) (rid : Nat) :
    (mark_reminder_as_sent db rid).2.next_reminder_id = db.next_reminder_id := by
  unfold mark_reminder_as_sent
  split <;> rfl

theorem completed_next (db : DB) (rid : Nat) :
    (mark_reminder_as_completed db rid).2.next_reminder_id = db.next_reminder_id := by
  unfold mark_reminder_as_completed
  split <;> rfl

theorem delete_shape (db : DB) (rid : Nat) (tid : Int) :
    List.Sublist (delete_reminder db rid tid).2.reminders db.reminders
      ∧ (delete_reminder db rid tid).2.next_reminder_id = db.next_reminder_id := by
  unfold delete_reminder
  rcases hfind : get_user_by_telegram_id db tid with _ | u
  · exact ⟨List.Sublist.refl _, rfl⟩
  · dsimp only
    by_cases hany : (db.reminders.any fun r => r.id == rid && r.user_id == u.id) = true
    · rw [if_pos hany]
      exact ⟨List.eraseP_sublist _, rfl⟩
    · rw [if_neg hany]
      exact ⟨List.Sublist.refl _, rfl⟩

/-! ## Store operation sequences (for the delivered-flag monotonicity
invariant).  `Op` enumerates the mutating service operations; queries
(`get_pending_reminders`, `get_user_reminders`, `get_reminder_statistics`)
are pure functions of the store in this embedding and cannot change it. -/

inductive Op where
  | create (telegram_id : Int) (description : String) (reminder_date : Int)
      (urgency : String) (nonce : String) (shortcut_url : Option String)
  | markSent (reminder_id : Nat)
  | markCompleted (reminder_id : Nat)
  | del (reminder_id : Nat) (telegram_id : Int)
deriving Repr

/-- The store state after one service call. -/
def applyOp (db : DB) : Op → DB
  | Op.create tid d rd urg n s => (create_reminder db tid d rd urg n s).2
  | Op.markSent rid => (mark_reminder_as_sent db rid).2
  | Op.markCompleted rid => (mark_reminder_as_completed db rid).2
  | Op.del rid tid => (delete_reminder db rid tid).2

/-- The store state after a sequence of service calls. -/
def applyOps (db : DB) (ops : List Op) : DB := ops.foldl applyOp db

/-- Store well-formedness: every row id is below the autoincrement counter
and row ids are unique (primary key). -/
def WF (db : DB) : Prop :=
  (∀ r ∈ db.reminders, r.id < db.next_reminder_id)
    ∧ (db.reminders.map (fun r => r.id)).Nodup

theorem create_shape (db : DB) (tid : Int) (d : String) (rd : Int)
    (urg : String) (n : String) (s : Option String) :
    (create_reminder db tid d rd urg n s).2 = db
    ∨ ∃ u, get_user_by_telegram_id db tid = some u
        ∧ (create_reminder db tid d rd urg n s).2.reminders
          = db.reminders
            ++ [⟨db.next_reminder_id, u.id, d, rd, urg,
                 "reminder_" ++ n ++ "_" ++ toString u.id, s, false, false⟩]
        ∧ (create_reminder db tid d rd urg n s).2.next_reminder_id
          = db.next_reminder_id + 1 := by
  unfold create_reminder
  rcases hfind : get_user_by_telegram_id db tid with _ | u
  · exact Or.inl rfl
  · exact Or.inr ⟨u, rfl, rfl, rfl⟩

theorem sentAll_completed (db : DB) (i rid : Nat) (h : sentAll db rid) :
    sentAll (mark_reminder_as_completed db i).2 rid := by
  unfold mark_reminder_as_completed
  split
  · intro x hx hid
    rcases mem_setCompletedFirst hx with h1 | ⟨y, hy, hxy⟩
    · exact h x h1 hid
    · have h2 : x.is_sent = y.is_sent := by rw [hxy]
      have h3 : y.id = rid := by rw [← hid, hxy]
      rw [h2]
      exact h y hy h3
  · exact h

/-- One service call preserves well-formedness, keeps the id horizon, and
never resets a delivered flag. -/
theorem applyOp_preserves (db : DB) (op : Op) (rid : Nat)
    (hwf : WF db) (hlt : rid < db.next_reminder_id) (hs : sentAll db rid) :
    WF (applyOp db op) ∧ rid < (applyOp db op).next_reminder_id
      ∧ sentAll (applyOp db op) rid := by
  cases op with
  | create tid d rd urg n s =>
    simp only [applyOp]
    rcases create_shape db tid d rd urg n s with heq | ⟨u, _, hrem, hnext⟩
    · rw [heq]
      exact ⟨hwf, hlt, hs⟩
    · refine ⟨⟨?_, ?_⟩, ?_, ?_⟩
      · rw [hrem, hnext]
        intro x hx
        rcases List.mem_append.mp hx with h1 | h1
        · have := hwf.1 x h1
          omega
        · rw [List.mem_singleton.mp h1]
          show db.next_reminder_id < db.next_reminder_id + 1
          omega
      · rw [hrem, List.map_append]
        refine List.Nodup.append hwf.2 (List.nodup_singleton _) ?_
        intro a ha hb
        rcases List.mem_map.mp ha with ⟨y, hy, hyid⟩
        have h1 := hwf.1 y hy
        have h2 : a = db.next_reminder_id := by
          simpa using hb
        omega
      · rw [hnext]
        omega
      · intro x hx hid
        rw [hrem] at hx
        rcases List.mem_append.mp hx with h1 | h1
        · exact hs x h1 hid
        · rw [List.mem_singleton.mp h1] at hid
          dsimp only at hid
          exfalso
          omega
  | markSent j =>
    simp only [applyOp]
    refine ⟨⟨ids_bound_of_map_eq (mark_ids db j) ?_, ?_⟩, ?_, ?_⟩
    · rw [mark_next]
      exact hwf.1
    · rw [mark_ids]
      exact hwf.2
    · rw [mark_next]
      exact hlt
    · exact sentAll_mark db j rid hs
  | markCompleted j =>
    simp only [applyOp]
    refine ⟨⟨ids_bound_of_map_eq (completed_ids db j) ?_, ?_⟩, ?_, ?_⟩
    · rw [completed_next]
      exact hwf.1
    · rw [completed_ids]
      exact hwf.2
    · rw [completed_next]
      exact hlt
    · exact sentAll_completed db j rid hs
  | del j tid =>
    simp only [applyOp]
    obtain ⟨hsub, hnext⟩ := delete_shape db j tid
    refine ⟨⟨?_, ?_⟩, ?_, ?_⟩
    · rw [hnext]
      intro x hx
      exact hwf.1 x (hsub.subset hx)
    · exact hwf.2.sublist (hsub.map (fun r => r.id))
    · rw [hnext]
      exact hlt
    · intro x hx hid
      exact hs x (hsub.subset hx) hid

theorem applyOps_sentAll (ops : List Op) (db : DB) (rid : Nat)
    (hwf : WF db) (hlt : rid < db.next_reminder_id) (hs : sentAll db rid) :
    sentAll (applyOps db ops) rid := by
  induction ops generalizing db with
  | nil => exact hs
  | cons op rest ih =>
    rw [applyOps, List.foldl_cons]
    obtain ⟨hwf2, hlt2, hs2⟩ := applyOp_preserves db op rid hwf hlt hs
    exact ih (applyOp db op) hwf2 hlt2 hs2

/-! ## Concrete fixtures used by witnesses and counterexamples -/

/-- Example user 1 (telegram id 100). -/
def u1 : User := { id := 1, telegram_id := 100 }

/-- Example user 2 (telegram id 200). -/
def u2 : User := { id := 2, telegram_id := 200 }

/-- An undelivered, uncompleted reminder of user 1, due at instant 50. -/
def r1 : Reminder :=
  { id := 1, user_id := 1, description := "pagar aluguel", reminder_date := 50
    urgency := "alta", job_id := "reminder_aa_1", shortcut_url := none
    is_sent := false, is_completed := false }

/-- A completed reminder of user 1, same due instant as `r1`. -/
def r2 : Reminder :=
  { id := 2, user_id := 1, description := "ligar para casa", reminder_date := 50
    urgency := "média", job_id := "reminder_bb_1", shortcut_url := some "shortcuts://x"
    is_sent := false, is_completed := true }

/-- An already delivered reminder of user 2, due at instant 200. -/
def r3 : Reminder :=
  { id := 3, user_id := 2, description := "academia", reminder_date := 200
    urgency := "baixa", job_id := "reminder_cc_2", shortcut_url := none
    is_sent := true, is_completed := false }

/-- A small concrete store with two users and three reminders. -/
def exampleDB : DB :=
  { users := [u1, u2], reminders := [r1, r2, r3], next_reminder_id := 4 }

/-! ## Claims -/

/-- C4 counterexample: the claim says the timer delay is
`max(due_instant - now, 60)` and never below the 60-second floor; but for
a reminder due 30 seconds in the future (`now = 0`, `due = 30`) the code
computes delay 30, which differs from `max(30 - 0, 60) = 60` and is below
the floor. -/
theorem schedule_delay_counterexample :
    compute_when 0 30 = 30
      ∧ compute_when 0 30 ≠ max ((30 : Int) - 0) 60
      ∧ compute_when 0 30 < 60 := by
  decide

/-- C4 (amended): schedule_reminder computes the delay as 60 seconds when
the due instant is at or before now, and as the exact remaining time
`due_instant - now` otherwise — so the delay is always positive, but
reminders due strictly less than 60 seconds in the future get a delay
below the 60-second floor. -/
theorem schedule_delay_amended (now t : Int) :
    0 < compute_when now t
      ∧ (t ≤ now → compute_when now t = 60)
      ∧ (now < t → compute_when now t = t - now) := by
  unfold compute_when
  refine ⟨?_, ?_, ?_⟩ <;> split <;> omega

/-- Witness for C4's amended theorem at concrete inputs: a past-due
reminder gets delay 60, a reminder due in 90 seconds gets delay 90. -/
theorem schedule_delay_amended_witness :
    compute_when 0 (-5) = 60 ∧ compute_when 0 90 = 90 :=
  ⟨(schedule_delay_amended 0 (-5)).2.1 (by decide),
   (schedule_delay_amended 0 90).2.2 (by decide)⟩

/-- C5: the claim (and spec §4.2/§8) says resolution never fails and that
an unparseable time token such as "25:99" falls back to 09:00 local; but
in the code `int("25")` and `int("99")` both succeed, so the inner
fallback is not taken, and `datetime.min.time().replace(hour=25,
minute=99)` raises `ValueError`, which the outer handler turns into
`None`: for every date token, timezone offset and local date,
parse_reminder_data applied to time token "25:99" returns `none`, not a
09:00 instant. -/
theorem parse_time_25_99_fails (dateutil_parse : String → Option Int)
    (date_str : String) (tz_offset_min now_day : Int) :
    parse_reminder_data dateutil_parse date_str "25:99" tz_offset_min now_day
      = none := by
  have h : resolve_time "25:99" = (25, 99) := by decide
  unfold parse_reminder_data
  rw [h]
  norm_num

/-- C6: with date token "amanhã", time token "14:00" and the
America/Sao_Paulo offset (UTC-03:00, i.e. -180 minutes, the zone's fixed
offset in 2024), at a local now on day 19783 (2024-03-01), the resolved
instant is day 19784 (2024-03-02) at 17:00 UTC — the minute count
`19784 * 1440 + 17 * 60` — independently of the external date parser,
which is not consulted for the "amanhã" literal. -/
theorem parse_amanha_sao_paulo (dateutil_parse : String → Option Int) :
    parse_reminder_data dateutil_parse "amanhã" "14:00" (-180) 19783
      = some (19784 * 1440 + 17 * 60) := by
  have hA : (lowerEq "amanhã" "hoje" || lowerEq "amanhã" "today") = false := by decide
  have hB : (lowerEq "amanhã" "amanhã" || lowerEq "amanhã" "amanha"
      || lowerEq "amanhã" "tomorrow") = true := by decide
  have hT : resolve_time "14:00" = (14, 0) := by decide
  unfold parse_reminder_data resolve_date
  rw [hA, hB, hT]
  norm_num

/-- C8: mark_reminder_as_sent is idempotent — when a reminder with the id
exists, the first call returns true and sets `is_sent`; the second call on
the updated store returns true again and leaves the store exactly as the
first call left it; when no reminder matches, the call returns false with
the store untouched (no exception). -/
theorem mark_delivered_idempotent (db : DB) (rid : Nat) :
    ((∃ r ∈ db.reminders, r.id = rid) →
      (mark_reminder_as_sent db rid).1 = true
      ∧ mark_reminder_as_sent (mark_reminder_as_sent db rid).2 rid
          = (true, (mark_reminder_as_sent db rid).2)
      ∧ ∃ x ∈ (mark_reminder_as_sent db rid).2.reminders,
          x.id = rid ∧ x.is_sent = true)
    ∧ ((∀ r ∈ db.reminders, r.id ≠ rid) →
        mark_reminder_as_sent db rid = (false, db)) := by
  constructor
  · intro h
    obtain ⟨r, hr, hrid⟩ := h
    have hany : db.reminders.any (fun x => x.id == rid) = true :=
      List.any_eq_true.mpr ⟨r, hr, beq_iff_eq.mpr hrid⟩
    have h1 : mark_reminder_as_sent db rid
        = (true, { db with reminders := setSentFirst db.reminders rid }) := by
      unfold mark_reminder_as_sent
      rw [if_pos hany]
    refine ⟨by rw [h1], ?_, ?_⟩
    · rw [h1]
      have hany2 : (setSentFirst db.reminders rid).any (fun x => x.id == rid) = true := by
        rw [any_id_of_ids, setSentFirst_ids, ← any_id_of_ids]
        exact hany
      unfold mark_reminder_as_sent
      rw [if_pos hany2]
      rw [setSentFirst_idem]
    · rw [h1]
      exact setSentFirst_exists_sent db.reminders rid ⟨r, hr, hrid⟩
  · intro h
    have hany : db.reminders.any (fun x => x.id == rid) = false := by
      rw [Bool.eq_false_iff]
      intro hc
      obtain ⟨r, hr, hrid⟩ := List.any_eq_true.mp hc
      exact h r hr (beq_iff_eq.mp hrid)
    unfold mark_reminder_as_sent
    rw [if_neg (by rw [hany]; exact Bool.false_ne_true)]

/-- Witness for C8 at a concrete store: reminder 1 exists in `exampleDB`
(first call true, second call a no-op true on the updated store, flag set)
and reminder 99 does not (false, store unchanged). -/
theorem mark_delivered_idempotent_witness :
    ((mark_reminder_as_sent exampleDB 1).1 = true
      ∧ mark_reminder_as_sent (mark_reminder_as_sent exampleDB 1).2 1
          = (true, (mark_reminder_as_sent exampleDB 1).2)
      ∧ ∃ x ∈ (mark_reminder_as_sent exampleDB 1).2.reminders,
          x.id = 1 ∧ x.is_sent = true)
    ∧ mark_reminder_as_sent exampleDB 99 = (false, exampleDB) :=
  ⟨(mark_delivered_idempotent exampleDB 1).1 ⟨r1, by decide, by decide⟩,
   (mark_delivered_idempotent exampleDB 99).2 (by decide)⟩

/-- C9: delete_reminder succeeds only when the requesting user exists and
owns the reminder: a true result implies the requester is a stored user
with the reminder's `user_id`; and every failing call (unknown requester,
unknown reminder, or foreign reminder) leaves the store unchanged. -/
theorem delete_requires_ownership (db : DB) (rid : Nat) (tid : Int) :
    ((delete_reminder db rid tid).1 = true →
      ∃ u ∈ db.users, u.telegram_id = tid
        ∧ ∃ r ∈ db.reminders, r.id = rid ∧ r.user_id = u.id)
    ∧ ((delete_reminder db rid tid).1 = false →
        (delete_reminder db rid tid).2 = db) := by
  unfold delete_reminder
  rcases hfind : get_user_by_telegram_id db tid with _ | u
  · exact ⟨fun h => absurd h (by simp), fun _ => rfl⟩
  · dsimp only
    have hu : u ∈ db.users ∧ u.telegram_id = tid := by
      unfold get_user_by_telegram_id at hfind
      have h1 := List.mem_of_find?_eq_some hfind
      have h2 := List.find?_some hfind
      exact ⟨h1, beq_iff_eq.mp h2⟩
    by_cases hany : (db.reminders.any fun r => r.id == rid && r.user_id == u.id) = true
    · rw [if_pos hany]
      refine ⟨fun _ => ?_, fun h => absurd h (by simp)⟩
      obtain ⟨r, hr, hp⟩ := List.any_eq_true.mp hany
      rw [Bool.and_eq_true, beq_iff_eq, beq_iff_eq] at hp
      exact ⟨u, hu.1, hu.2, r, hr, hp.1, hp.2⟩
    · rw [if_neg hany]
      exact ⟨fun h => absurd h (by simp), fun _ => rfl⟩

/-- Witness for C9 at a concrete store: user 100 owns reminder 1, so a
successful delete exhibits the ownership facts; user 200 does not own
reminder 1, so that request fails and leaves the store unchanged. -/
theorem delete_requires_ownership_witness :
    (∃ u ∈ exampleDB.users, u.telegram_id = 100
      ∧ ∃ r ∈ exampleDB.reminders, r.id = 1 ∧ r.user_id = u.id)
    ∧ (delete_reminder exampleDB 1 200).2 = exampleDB :=
  ⟨(delete_requires_ownership exampleDB 1 100).1 (by decide),
   (delete_requires_ownership exampleDB 1 200).2 (by decide)⟩

/-- C10: for an existing user the statistics satisfy
`total = completed + pending + overdue` at any fixed instant, because
pending and overdue split the non-completed rows by `now <
reminder_date` versus `reminder_date ≤ now`; for an unknown user the
result is the empty dict (`none`), not an error. -/
theorem statistics_total_partition (db : DB) (tid : Int) (now : Int) :
    (∀ u, get_user_by_telegram_id db tid = some u →
      ∃ s, get_reminder_statistics db tid now = some s
        ∧ s.total = s.completed + s.pending + s.overdue)
    ∧ (get_user_by_telegram_id db tid = none →
        get_reminder_statistics db tid now = none) := by
  constructor
  · intro u hu
    have hdef : get_reminder_statistics db tid now = some
        { total := (db.reminders.filter (fun r => r.user_id == u.id)).length
          completed := (db.reminders.filter
              (fun r => r.user_id == u.id && r.is_completed)).length
          pending := (db.reminders.filter
              (fun r => r.user_id == u.id && !r.is_completed
                && decide (now < r.reminder_date))).length
          overdue := (db.reminders.filter
              (fun r => r.user_id == u.id && !r.is_completed
                && decide (r.reminder_date ≤ now))).length } := by
      unfold get_reminder_statistics
      rw [hu]
    exact ⟨_, hdef, stats_partition db.reminders u.id now⟩
  · intro h
    unfold get_reminder_statistics
    rw [h]

/-- Witness for C10 at a concrete store and instant 60: user 100 exists
(total 2 = 1 completed + 0 pending + 1 overdue), user 999 does not. -/
theorem statistics_total_partition_witness :
    (∃ s, get_reminder_statistics exampleDB 100 60 = some s
      ∧ s.total = s.completed + s.pending + s.overdue)
    ∧ get_reminder_statistics exampleDB 999 60 = none :=
  ⟨(statistics_total_partition exampleDB 100 60).1 u1 (by decide),
   (statistics_total_partition exampleDB 999 60).2 (by decide)⟩

/-- The ordering property C1 claims of a delivery trace: every mark for
the reminder comes strictly after a delivery attempt for it. -/
def deliver_precedes_mark (evs : List Event) (rid : Nat) : Prop :=
  ∀ i j : Nat, ∀ ok : Bool, evs[i]? = some (Event.markSent rid) →
    evs[j]? = some (Event.deliverAttempt rid ok) → j < i

/-- C1 counterexample: on the timer-callback path for reminder 1 of the
example store with a failing send, the trace is
`[markSent 1, deliverAttempt 1 false]` — the mark (index 0) comes before
the delivery attempt (index 1), so delivery does not precede marking, and
`delivered` is set although delivery did not succeed. -/
theorem deliver_first_counterexample :
    ¬ (deliver_precedes_mark (send_reminder_callback exampleDB 1 false).2 1
      ∧ ∀ x ∈ (send_reminder_callback exampleDB 1 false).1.reminders,
          x.id = 1 → x.is_sent = false) := by
  intro h
  have := h.1 0 1 false rfl rfl
  omega

/-- C1 (amended): in both delivery paths the Store's mark_delivered is
invoked first and unconditionally, and the Delivery Sink second: the
trace of the timer callback and of the Sweeper's direct send is always
mark-then-deliver, the resulting store state is exactly the
mark_reminder_as_sent result (independent of the delivery outcome), and
an existing reminder ends up `delivered = true` even when the delivery
attempt fails. -/
theorem mark_then_deliver (db : DB) (rid : Nat) (ok : Bool) (r0 : Reminder) :
    (send_reminder_callback db rid ok).2
        = [Event.markSent rid, Event.deliverAttempt rid ok]
    ∧ (send_reminder_callback_direct db r0 ok).2
        = [Event.markSent r0.id, Event.deliverAttempt r0.id ok]
    ∧ (send_reminder_callback db rid ok).1 = (mark_reminder_as_sent db rid).2
    ∧ (send_reminder_callback_direct db r0 ok).1
        = (mark_reminder_as_sent db r0.id).2
    ∧ ((∃ r ∈ db.reminders, r.id = rid) →
        ∃ x ∈ (send_reminder_callback db rid ok).1.reminders,
          x.id = rid ∧ x.is_sent = true) := by
  refine ⟨rfl, rfl, rfl, rfl, ?_⟩
  intro h
  obtain ⟨r, hr, hrid⟩ := h
  have hany : db.reminders.any (fun x => x.id == rid) = true :=
    List.any_eq_true.mpr ⟨r, hr, beq_iff_eq.mpr hrid⟩
  show ∃ x ∈ (mark_reminder_as_sent db rid).2.reminders, x.id = rid ∧ x.is_sent = true
  unfold mark_reminder_as_sent
  rw [if_pos hany]
  exact setSentFirst_exists_sent db.reminders rid ⟨r, hr, hrid⟩

/-- Witness for C1's amended theorem: on the example store with a failed
delivery, reminder 1 is nevertheless marked delivered. -/
theorem mark_then_deliver_witness :
    ∃ x ∈ (send_reminder_callback exampleDB 1 false).1.reminders,
      x.id = 1 ∧ x.is_sent = true :=
  (mark_then_deliver exampleDB 1 false r1).2.2.2.2 (by decide)

/-- C3: over a store whose rows are in strictly increasing id order (the
invariant maintained by the autoincrement key), get_pending_reminders
returns exactly the rows with due instant ≤ the cut-off that are neither
sent nor completed — in particular never a completed one — ordered by due
instant ascending with ties in id order. -/
theorem get_pending_characterization (db : DB) (t : Int)
    (hids : (db.reminders.map (fun r => r.id)).Sorted (· < ·)) :
    (∀ r, r ∈ get_pending_reminders db t ↔
        r ∈ db.reminders ∧ r.reminder_date ≤ t ∧ r.is_sent = false
          ∧ r.is_completed = false)
    ∧ (get_pending_reminders db t).Pairwise lexLt := by
  refine ⟨fun r => mem_get_pending db t r, ?_⟩
  unfold get_pending_reminders
  apply insertionSort_lex
  exact List.Pairwise.sublist
    ((List.filter_sublist db.reminders).map (fun r => r.id)) hids

/-- Witness for C3 on the example store at cut-off 100: ids are strictly
increasing, and both the membership characterization and the lexicographic
ordering hold. -/
theorem get_pending_characterization_witness :
    (exampleDB.reminders.map (fun r => r.id)).Sorted (· < ·)
    ∧ ((∀ r, r ∈ get_pending_reminders exampleDB 100 ↔
          r ∈ exampleDB.reminders ∧ r.reminder_date ≤ 100 ∧ r.is_sent = false
            ∧ r.is_completed = false)
        ∧ (get_pending_reminders exampleDB 100).Pairwise lexLt) :=
  ⟨by decide, get_pending_characterization exampleDB 100 (by decide)⟩

/-- C7: the delivered flag is monotonic — in a well-formed store, once
some row holds `delivered = true` for an id, then after any sequence of
service operations (creates, marks, deletes; queries are pure) every row
still carrying that id has `delivered = true`: no operation resets it. -/
theorem delivered_monotonic (db : DB) (rid : Nat) (ops : List Op)
    (hwf : WF db)
    (hd : ∃ r ∈ db.reminders, r.id = rid ∧ r.is_sent = true) :
    ∀ x ∈ (applyOps db ops).reminders, x.id = rid → x.is_sent = true := by
  obtain ⟨r, hr, hrid, hrs⟩ := hd
  have hlt : rid < db.next_reminder_id := hrid ▸ hwf.1 r hr
  have hs : sentAll db rid := by
    intro x hx hxid
    have hxy : x = r :=
      List.inj_on_of_nodup_map hwf.2 hx hr (by rw [hxid, hrid])
    rw [hxy]
    exact hrs
  exact applyOps_sentAll ops db rid hwf hlt hs

/-- Witness for C7: in the example store reminder 3 is delivered; after a
completion, a create, a delete and another mark, every row with id 3 is
still delivered. -/
theorem delivered_monotonic_witness :
    (WF exampleDB ∧ ∃ r ∈ exampleDB.reminders, r.id = 3 ∧ r.is_sent = true)
    ∧ ∀ x ∈ (applyOps exampleDB
        [Op.markCompleted 3, Op.create 100 "novo lembrete" 75 "média" "dd" none,
         Op.del 1 100, Op.markSent 2]).reminders,
        x.id = 3 → x.is_sent = true :=
  ⟨⟨⟨by decide, by decide⟩, by decide⟩,
   delivered_monotonic exampleDB 3
     [Op.markCompleted 3, Op.create 100 "novo lembrete" 75 "média" "dd" none,
      Op.del 1 100, Op.markSent 2]
     ⟨by decide, by decide⟩ (by decide)⟩

/-- C2: for a reminder due at or before `now`, not delivered, not
completed, and with no armed job under its correlation key, one Sweeper
tick makes exactly one delivery attempt for it, and any later tick — at
any instant, with any job queue and any delivery outcomes — makes zero
further attempts for it. -/
theorem sweeper_delivers_exactly_once (db : DB) (jobs : List String) (now : Int)
    (ok : Nat → Bool) (jobs2 : List String) (now2 : Int) (ok2 : Nat → Bool)
    (r : Reminder)
    (hnd : (db.reminders.map (fun x => x.id)).Nodup)
    (hr : r ∈ db.reminders) (hdue : r.reminder_date ≤ now)
    (hsent : r.is_sent = false) (hcomp : r.is_completed = false)
    (hjob : r.job_id ∉ jobs) :
    countDeliver (check_pending_reminders db jobs now ok).2 r.id = 1
    ∧ countDeliver (check_pending_reminders
        (check_pending_reminders db jobs now ok).1 jobs2 now2 ok2).2 r.id = 0 := by
  have hpend : r ∈ get_pending_reminders db now :=
    (mem_get_pending db now r).mpr ⟨hr, hdue, hsent, hcomp⟩
  have hpnd := get_pending_ids_nodup db now hnd
  constructor
  · rw [check_pending_reminders, countDeliver_deliver_missing]
    refine filter_unique_id _ _ r hpnd hpend ?_ ?_
    · simp [hjob]
    · intro x hx
      rw [Bool.and_eq_true, beq_iff_eq] at hx
      exact hx.1
  · have hall : sentAll (check_pending_reminders db jobs now ok).1 r.id := by
      rw [check_pending_reminders]
      exact deliver_missing_marks jobs ok db _ r hnd hpend hjob
    rw [check_pending_reminders, countDeliver_deliver_missing]
    rw [List.length_eq_zero]
    refine List.filter_eq_nil_iff.mpr ?_
    intro x hx hpx
    have hmem := (mem_get_pending _ now2 x).mp hx
    rw [Bool.and_eq_true, beq_iff_eq] at hpx
    have hxs : x.is_sent = true := hall x hmem.1 hpx.1
    rw [hmem.2.2.1] at hxs
    simp at hxs

/-- Witness for C2: reminder 1 of the example store is due at instant 60,
undelivered, uncompleted and has no job in an empty queue; the first tick
attempts it once and the next tick not at all. -/
theorem sweeper_delivers_exactly_once_witness :
    countDeliver (check_pending_reminders exampleDB [] 60 (fun _ => true)).2 1 = 1
    ∧ countDeliver (check_pending_reminders
        (check_pending_reminders exampleDB [] 60 (fun _ => true)).1
        [] 60 (fun _ => true)).2 1 = 0 :=
  sweeper_delivers_exactly_once exampleDB [] 60 (fun _ => true) [] 60 (fun _ => true)
    r1 (by decide) (by decide) (by decide) (by decide) (by decide) (by decide)

end Sara
